import Mathlib

/-!
Shallow embedding of two fragments of the repository:

* `src/torch/quantization/fx/qconfig_utils.py` — the qconfig resolution
  utilities used during graph-mode quantization (dictionary validation,
  conversion to ordered maps, flattening, and the precedence-based
  `get_qconfig` resolver).
* `src/benchmarks/distributed/rpc/parameter_server/trainers/DdpTrainer.py` —
  the `DdpTrainer.HookState` batch counter.

Python dictionaries are modelled as association lists with Python insertion
semantics (`pyGet`, `pySet`): assigning to an existing key keeps its position
and replaces its value, assigning to a fresh key appends it.  Keys of the
inner qconfig maps (object types, module names, regex patterns) are modelled
as strings: they are abstract identifiers compared only for equality.
Qconfig values are an abstract type `κ`.  `re.match` is an external library
call; it is modelled as an oracle `pmatch : String → String → Bool` taking
the pattern and the string.  Python exceptions are modelled with `Except`.
-/

namespace QFx

/-- Python dict lookup: value of the first entry whose key equals `k`. -/
def pyGet {σ β : Type} [DecidableEq σ] (d : List (σ × β)) (k : σ) : Option β :=
  match d with
  | [] => none
  | p :: rest => if p.1 = k then some p.2 else pyGet rest k

/-- Python `dict.get(k, dflt)`. -/
def pyGetD {σ β : Type} [DecidableEq σ] (d : List (σ × β)) (k : σ) (dflt : β) : β :=
  (pyGet d k).getD dflt

/-- Python dict membership `k in d`. -/
def pyMem {σ β : Type} [DecidableEq σ] (d : List (σ × β)) (k : σ) : Bool :=
  (pyGet d k).isSome

/-- Python dict assignment `d[k] = v`: replace in place when the key exists,
append otherwise. -/
def pySet {σ β : Type} [DecidableEq σ] (d : List (σ × β)) (k : σ) (v : β) : List (σ × β) :=
  match d with
  | [] => [(k, v)]
  | p :: rest => if p.1 = k then (k, v) :: rest else p :: pySet rest k v

/-- Value stored in a qconfig dictionary: either a list/ordered map of
(key, qconfig) pairs (the `object_type`, `module_name_regex` and
`module_name` entries), or a bare qconfig (the global `""` entry). -/
inductive PyVal (κ : Type) where
  | pairs : List (String × κ) → PyVal κ
  | qc : κ → PyVal κ
deriving DecidableEq

/-- A Python qconfig dictionary: string keys mapped to `PyVal`s. -/
def RawDict (κ : Type) : Type := List (String × PyVal κ)

/-- Last value listed for key `k` in a list of pairs (Python dict-from-pairs
keeps the last value for a duplicated key). -/
def lastVal {σ β : Type} [DecidableEq σ] (l : List (σ × β)) (k : σ) : Option β :=
  l.foldl (fun acc p => if p.1 = k then some p.2 else acc) none

/-- `OrderedDict(pairs)`: fold the listed pairs into a dict with Python
insertion semantics (first occurrence fixes the position, last occurrence
fixes the value). -/
def odictOfPairs {σ β : Type} [DecidableEq σ] (l : List (σ × β)) : List (σ × β) :=
  l.foldl (fun acc p => pySet acc p.1 p.2) []

/-- Modelled from the spec: the helper `_parent_name`, imported by
`qconfig_utils.py` from `torch.quantization.fx.utils`, is not part of this
fragment.  Per the spec, module-name resolution falls back to the parent
scope, i.e. the module name with its last dot-separated component removed
(the empty string when there is no dot).  `parentStep` works on the reversed
character list: it drops characters up to and including the last `'.'`. -/
def parentStep : List Char → List Char
  | [] => []
  | c :: cs => if c = '.' then cs else parentStep cs

/-- Modelled from the spec: the parent scope of a module name — the name with
its last dot-separated component removed, `""` when there is no dot. -/
def parentName (s : String) : String :=
  String.mk ((parentStep s.data.reverse).reverse)

theorem parentStep_length_lt : ∀ l : List Char, l ≠ [] → (parentStep l).length < l.length := by
  intro l
  induction l with
  | nil => intro h; exact absurd rfl h
  | cons c cs ih =>
    intro _
    simp only [parentStep]
    by_cases hc : c = '.'
    · simp [hc]
    · rw [if_neg hc]
      by_cases hcs : cs = []
      · subst hcs; simp [parentStep]
      · have := ih hcs
        simp only [List.length_cons]
        omega

theorem parentName_length_lt (s : String) (h : s ≠ "") :
    (parentName s).length < s.length := by
  have hd : s.data ≠ [] := by
    intro hnil
    apply h
    cases s with
    | mk data => simp only at hnil; subst hnil; rfl
  have hlt : (parentStep s.data.reverse).length < s.data.reverse.length :=
    parentStep_length_lt _ (by simpa using hd)
  have h1 : (parentName s).length = (parentStep s.data.reverse).length := by
    show ((parentStep s.data.reverse).reverse).length = _
    rw [List.length_reverse]
  have h2 : s.data.reverse.length = s.length := by
    rw [List.length_reverse]; rfl
  omega

/-- A qconfig dictionary whose `object_type`, `module_name_regex` and
`module_name` entries are present as (ordered) maps — the shape established
by `convert_dict_to_ordered_dict` and assumed by the resolvers. -/
structure QConfigMaps (κ : Type) where
  object_type : List (String × κ)
  module_name_regex : List (String × κ)
  module_name : List (String × κ)

/-- `get_object_type_qconfig`: `qconfig_dict['object_type'].get(object_type,
fallback_qconfig)`. -/
def get_object_type_qconfig {κ : Type} (qconfig_dict : QConfigMaps κ)
    (object_type : String) (fallback_qconfig : κ) : κ :=
  pyGetD qconfig_dict.object_type object_type fallback_qconfig

/-- The `for regex_pattern, qconfig in ... .items()` loop of
`get_module_name_regex_qconfig`: return the qconfig of the first pattern
matching `module_name` (`pmatch` models `re.match`), the fallback when none
does. -/
def regexLoop {κ : Type} (pmatch : String → String → Bool)
    (l : List (String × κ)) (module_name : String) (fallback_qconfig : κ) : κ :=
  match l with
  | [] => fallback_qconfig
  | (regex_pattern, qconfig) :: rest =>
    if pmatch regex_pattern module_name then qconfig
    else regexLoop pmatch rest module_name fallback_qconfig

/-- `get_module_name_regex_qconfig`: first match over
`qconfig_dict['module_name_regex'].items()` wins, else the fallback. -/
def get_module_name_regex_qconfig {κ : Type} (pmatch : String → String → Bool)
    (qconfig_dict : QConfigMaps κ) (module_name : String) (fallback_qconfig : κ) : κ :=
  regexLoop pmatch qconfig_dict.module_name_regex module_name fallback_qconfig

/-- `get_module_name_qconfig`: exact entry for `module_name` if present,
otherwise recurse on the parent scope; the empty name returns the fallback. -/
def get_module_name_qconfig {κ : Type} (qconfig_dict : QConfigMaps κ)
    (module_name : String) (fallback_qconfig : κ) : κ :=
  if module_name = "" then fallback_qconfig
  else
    match pyGet qconfig_dict.module_name module_name with
    | some q => q
    | none => get_module_name_qconfig qconfig_dict (parentName module_name) fallback_qconfig
termination_by module_name.length
decreasing_by exact parentName_length_lt module_name (by assumption)

/-- `get_qconfig`: object-type result feeds the regex stage as fallback,
whose result feeds the module-name stage as fallback. -/
def get_qconfig {κ : Type} (pmatch : String → String → Bool)
    (qconfig_dict : QConfigMaps κ) (module_type : String) (module_name : String)
    (global_qconfig : κ) : κ :=
  get_module_name_qconfig qconfig_dict module_name
    (get_module_name_regex_qconfig pmatch qconfig_dict module_name
      (get_object_type_qconfig qconfig_dict module_type global_qconfig))

/-- The chain of scopes consulted by `get_module_name_qconfig`: the name,
its parent, its grandparent, …, stopping before the empty name. -/
def scopeChain (module_name : String) : List String :=
  if module_name = "" then []
  else module_name :: scopeChain (parentName module_name)
termination_by module_name.length
decreasing_by exact parentName_length_lt module_name (by assumption)

/-- A single-quote character, used by Python `str` renderings. -/
def sq : String := String.singleton (Char.ofNat 39)

/-- Elements of Python `str` of a set of strings: each element single-quoted,
separated by `", "` (the set's iteration order is modelled by the list
order). -/
def pySetElems : List String → String
  | [] => ""
  | [s] => sq ++ s ++ sq
  | s :: rest => sq ++ s ++ sq ++ ", " ++ pySetElems rest

/-- Python `str` of a set of strings. -/
def pySetStr (l : List String) : String :=
  "\x7b" ++ pySetElems l ++ "\x7d"

/-- The `ValueError` message raised by `check_is_valid_config_dict` for the
invalid key `k`. -/
def invalidKeyMsg (dict_name : String) (allowed_keys : List String) (k : String) : String :=
  "Expected " ++ dict_name ++ " to have the following keys: " ++
    pySetStr allowed_keys ++ ". But found " ++ sq ++ k ++ sq ++ " instead."

/-- `check_is_valid_config_dict`: iterate over the dictionary keys and raise
`ValueError` on the first key outside `allowed_keys`. -/
def check_is_valid_config_dict (config_dict_keys : List String)
    (allowed_keys : List String) (dict_name : String) : Except String Unit :=
  match config_dict_keys with
  | [] => .ok ()
  | k :: rest =>
    if k ∈ allowed_keys then check_is_valid_config_dict rest allowed_keys dict_name
    else .error (invalidKeyMsg dict_name allowed_keys k)

/-- The allowed top-level keys of a qconfig_dict. -/
def qconfig_dict_allowed_keys : List String :=
  ["", "object_type", "module_name_regex", "module_name"]

/-- `check_is_valid_qconfig_dict`. -/
def check_is_valid_qconfig_dict (qconfig_dict_keys : List String) : Except String Unit :=
  check_is_valid_config_dict qconfig_dict_keys qconfig_dict_allowed_keys "qconfig_dict"

/-- The inner `_convert_to_ordered_dict` of `convert_dict_to_ordered_dict`:
`qconfig_dict[key] = OrderedDict(qconfig_dict.get(key, []))`.  `OrderedDict`
of a non-sequence (a bare qconfig) raises `TypeError`. -/
def convertKeyToOrderedDict {κ : Type} (key : String) (qconfig_dict : RawDict κ) :
    Except String (RawDict κ) :=
  match pyGetD qconfig_dict key (.pairs []) with
  | .pairs l => .ok (pySet qconfig_dict key (.pairs (odictOfPairs l)))
  | .qc _ => .error "TypeError"

/-- `convert_dict_to_ordered_dict`: convert the `object_type`,
`module_name_regex` and `module_name` entries (in that order) to ordered
maps, in place. -/
def convert_dict_to_ordered_dict {κ : Type} (qconfig_dict : RawDict κ) :
    Except String (RawDict κ) :=
  match convertKeyToOrderedDict "object_type" qconfig_dict with
  | .error e => .error e
  | .ok d1 =>
    match convertKeyToOrderedDict "module_name_regex" d1 with
    | .error e => .error e
    | .ok d2 => convertKeyToOrderedDict "module_name" d2

/-- Read the three map entries out of a raw dict; `none` when one is absent
or not a map. -/
def toMaps {κ : Type} (qconfig_dict : RawDict κ) : Option (QConfigMaps κ) :=
  match pyGet qconfig_dict "object_type", pyGet qconfig_dict "module_name_regex",
      pyGet qconfig_dict "module_name" with
  | some (.pairs ot), some (.pairs mnr), some (.pairs mn) => some ⟨ot, mnr, mn⟩
  | _, _, _ => none

/-- `get_object_type_qconfig` on the raw dict: `qconfig_dict['object_type']`
raises `KeyError` when absent, `.get` on a non-map raises `AttributeError`. -/
def get_object_type_qconfigE {κ : Type} (qconfig_dict : RawDict κ)
    (object_type : String) (fallback_qconfig : κ) : Except String κ :=
  match pyGet qconfig_dict "object_type" with
  | some (.pairs l) => .ok (pyGetD l object_type fallback_qconfig)
  | some (.qc _) => .error "AttributeError"
  | none => .error "KeyError"

/-- `get_module_name_regex_qconfig` on the raw dict. -/
def get_module_name_regex_qconfigE {κ : Type} (pmatch : String → String → Bool)
    (qconfig_dict : RawDict κ) (module_name : String) (fallback_qconfig : κ) :
    Except String κ :=
  match pyGet qconfig_dict "module_name_regex" with
  | some (.pairs l) => .ok (regexLoop pmatch l module_name fallback_qconfig)
  | some (.qc _) => .error "AttributeError"
  | none => .error "KeyError"

/-- `get_module_name_qconfig` on the raw dict: each recursive step indexes
`qconfig_dict['module_name']` again. -/
def get_module_name_qconfigE {κ : Type} (qconfig_dict : RawDict κ)
    (module_name : String) (fallback_qconfig : κ) : Except String κ :=
  if module_name = "" then .ok fallback_qconfig
  else
    match pyGet qconfig_dict "module_name" with
    | some (.pairs l) =>
      match pyGet l module_name with
      | some q => .ok q
      | none => get_module_name_qconfigE qconfig_dict (parentName module_name) fallback_qconfig
    | some (.qc _) => .error "TypeError"
    | none => .error "KeyError"
termination_by module_name.length
decreasing_by exact parentName_length_lt module_name (by assumption)

/-- `get_qconfig` on the raw dict. -/
def get_qconfigE {κ : Type} (pmatch : String → String → Bool)
    (qconfig_dict : RawDict κ) (module_type : String) (module_name : String)
    (global_qconfig : κ) : Except String κ :=
  match get_object_type_qconfigE qconfig_dict module_type global_qconfig with
  | .error e => .error e
  | .ok module_type_qconfig =>
    match get_module_name_regex_qconfigE pmatch qconfig_dict module_name
        module_type_qconfig with
    | .error e => .error e
    | .ok module_name_regex_qconfig =>
      get_module_name_qconfigE qconfig_dict module_name module_name_regex_qconfig

/-- The `flatten_key` closure of `get_flattened_qconfig_dict`: when `key` is
present, `for obj, qconfig in qconfig_dict[key].items(): flattened[obj] =
qconfig` (`.items()` on a bare qconfig raises `AttributeError`). -/
def flatten_key {κ : Type} (qconfig_dict : RawDict κ) (key : String)
    (flattened : RawDict κ) : Except String (RawDict κ) :=
  match pyGet qconfig_dict key with
  | none => .ok flattened
  | some (.pairs l) => .ok (l.foldl (fun acc p => pySet acc p.1 (.qc p.2)) flattened)
  | some (.qc _) => .error "AttributeError"

/-- `get_flattened_qconfig_dict`: copy the `""` entry, then flatten the
`object_type` and `module_name` entries into the same dict;
`module_name_regex` is ignored. -/
def get_flattened_qconfig_dict {κ : Type} (qconfig_dict : RawDict κ) :
    Except String (RawDict κ) :=
  match flatten_key qconfig_dict "object_type"
      (match pyGet qconfig_dict "" with
       | some v => [("", v)]
       | none => []) with
  | .error e => .error e
  | .ok flattened => flatten_key qconfig_dict "module_name" flattened

/-- The list of (key, qconfig) pairs stored under `key`, the empty list when
the key is absent or holds a bare qconfig. -/
def listedPairs {κ : Type} (qconfig_dict : RawDict κ) (key : String) : List (String × κ) :=
  match pyGet qconfig_dict key with
  | some (.pairs l) => l
  | _ => []

section DictLemmas

variable {σ β : Type} [DecidableEq σ]

@[simp]
theorem pyGet_pySet_self (d : List (σ × β)) (k : σ) (v : β) :
    pyGet (pySet d k v) k = some v := by
  induction d with
  | nil => simp [pySet, pyGet]
  | cons p rest ih =>
    by_cases h : p.1 = k
    · simp [pySet, pyGet, h]
    · simp [pySet, pyGet, h, ih]

theorem pyGet_pySet_ne (d : List (σ × β)) (k k' : σ) (v : β) (h : k' ≠ k) :
    pyGet (pySet d k v) k' = pyGet d k' := by
  have hkk : ¬ k = k' := fun he => h he.symm
  induction d with
  | nil => simp [pySet, pyGet, hkk]
  | cons p rest ih =>
    by_cases hp : p.1 = k
    · subst hp
      simp [pySet, pyGet, hkk]
    · simp only [pySet, if_neg hp]
      by_cases hp' : p.1 = k'
      · simp [pyGet, hp']
      · simp [pyGet, hp', ih]

theorem pyGet_append (a b : List (σ × β)) (k : σ) :
    pyGet (a ++ b) k =
      match pyGet a k with
      | some v => some v
      | none => pyGet b k := by
  induction a with
  | nil => simp [pyGet]
  | cons p rest ih =>
    by_cases h : p.1 = k
    · simp [pyGet, h]
    · simp [pyGet, h, ih]

theorem pySet_of_get_none (d : List (σ × β)) (k : σ) (v : β) (h : pyGet d k = none) :
    pySet d k v = d ++ [(k, v)] := by
  induction d with
  | nil => simp [pySet]
  | cons p rest ih =>
    by_cases hp : p.1 = k
    · simp [pyGet, hp] at h
    · simp only [pyGet, hp, if_neg hp, ite_false] at h ⊢
      simp [pySet, hp, ih h]

theorem foldl_pySet_eq_append : ∀ (l acc : List (σ × β)),
    (l.map Prod.fst).Nodup → (∀ k ∈ l.map Prod.fst, pyGet acc k = none) →
    l.foldl (fun a p => pySet a p.1 p.2) acc = acc ++ l := by
  intro l
  induction l with
  | nil => intro acc _ _; simp
  | cons p rest ih =>
    intro acc hnd hnone
    simp only [List.map_cons, List.nodup_cons] at hnd
    have hp : pyGet acc p.1 = none := hnone p.1 (by simp)
    have hstep : pySet acc p.1 p.2 = acc ++ [p] := by
      rw [pySet_of_get_none _ _ _ hp]
    simp only [List.foldl_cons, hstep]
    rw [ih (acc ++ [p]) hnd.2]
    · simp
    · intro k hk
      rw [pyGet_append]
      rw [hnone k (by simp [hk])]
      have : p.1 ≠ k := fun he => hnd.1 (he ▸ hk)
      simp [pyGet, this]

theorem odictOfPairs_of_nodup (l : List (σ × β)) (h : (l.map Prod.fst).Nodup) :
    odictOfPairs l = l := by
  unfold odictOfPairs
  rw [foldl_pySet_eq_append l [] h (by intro k _; simp [pyGet])]
  simp

theorem lastVal_foldl_acc (k : σ) : ∀ (l : List (σ × β)) (acc : Option β),
    l.foldl (fun a p => if p.1 = k then some p.2 else a) acc =
      match lastVal l k with
      | some v => some v
      | none => acc := by
  intro l
  induction l with
  | nil => intro acc; rfl
  | cons p rest ih =>
    intro acc
    have hl : lastVal (p :: rest) k =
        rest.foldl (fun a q => if q.1 = k then some q.2 else a)
          (if p.1 = k then some p.2 else none) := rfl
    rw [List.foldl_cons, ih, hl, ih]
    by_cases hp : p.1 = k
    · simp only [hp, ite_true]
      cases hr : lastVal rest k <;> simp
    · simp only [hp, ite_false]
      cases hr : lastVal rest k <;> simp

theorem lastVal_cons (p : σ × β) (rest : List (σ × β)) (k : σ) :
    lastVal (p :: rest) k =
      match lastVal rest k with
      | some v => some v
      | none => if p.1 = k then some p.2 else none := by
  show (p :: rest).foldl (fun a q => if q.1 = k then some q.2 else a) none = _
  rw [List.foldl_cons]
  have := lastVal_foldl_acc k rest (if p.1 = k then some p.2 else none)
  exact this

theorem lastVal_none_of_not_mem (l : List (σ × β)) (k : σ) (h : k ∉ l.map Prod.fst) :
    lastVal l k = none := by
  induction l with
  | nil => rfl
  | cons p rest ih =>
    simp only [List.map_cons, List.mem_cons, not_or] at h
    have hp : ¬ p.1 = k := fun he => h.1 he.symm
    rw [lastVal_cons, ih h.2]
    simp [hp]

theorem lastVal_of_nodup (l : List (σ × β)) (k : σ) (v : β)
    (hnd : (l.map Prod.fst).Nodup) (hmem : (k, v) ∈ l) : lastVal l k = some v := by
  induction l with
  | nil => simp at hmem
  | cons p rest ih =>
    simp only [List.map_cons, List.nodup_cons] at hnd
    rcases List.mem_cons.mp hmem with heq | htail
    · subst heq
      rw [lastVal_cons, lastVal_none_of_not_mem rest k hnd.1]
      simp
    · rw [lastVal_cons, ih hnd.2 htail]

end DictLemmas

theorem pyGet_qcFold {κ : Type} : ∀ (l : List (String × κ)) (f : RawDict κ) (k : String),
    pyGet (l.foldl (fun acc p => pySet acc p.1 (.qc p.2)) f) k =
      match lastVal l k with
      | some v => some (.qc v)
      | none => pyGet f k := by
  intro l
  induction l with
  | nil => intro f k; simp [lastVal]
  | cons p rest ih =>
    intro f k
    rw [List.foldl_cons, ih, lastVal_cons]
    by_cases hp : p.1 = k
    · subst hp
      cases h : lastVal rest p.1 <;> simp [h]
    · have hne : k ≠ p.1 := fun he => hp he.symm
      cases h : lastVal rest k <;> simp [h, hp, pyGet_pySet_ne _ _ _ _ hne]

theorem length_zero_eq_empty (s : String) (h : s.length = 0) : s = "" := by
  cases s with
  | mk d =>
    have hd : d = [] := List.eq_nil_of_length_eq_zero h
    subst hd; rfl

theorem scopeChain_empty : scopeChain "" = [] := by
  rw [scopeChain]; simp

theorem scopeChain_cons (name : String) (h : name ≠ "") :
    scopeChain name = name :: scopeChain (parentName name) := by
  rw [scopeChain]; simp [h]

theorem gmnq_empty {κ : Type} (m : QConfigMaps κ) (fb : κ) :
    get_module_name_qconfig m "" fb = fb := by
  rw [get_module_name_qconfig]; simp

theorem gmnq_hit {κ : Type} (m : QConfigMaps κ) (name : String) (fb q : κ)
    (h0 : name ≠ "") (h : pyGet m.module_name name = some q) :
    get_module_name_qconfig m name fb = q := by
  rw [get_module_name_qconfig]; simp [h0, h]

theorem gmnq_miss {κ : Type} (m : QConfigMaps κ) (name : String) (fb : κ)
    (h0 : name ≠ "") (h : pyGet m.module_name name = none) :
    get_module_name_qconfig m name fb =
      get_module_name_qconfig m (parentName name) fb := by
  rw [get_module_name_qconfig]; simp [h0, h]

/-- `get_module_name_qconfig` returns the entry of the first scope in the
parent-scope chain that has one, the fallback otherwise. -/
theorem gmnq_eq_chain {κ : Type} (m : QConfigMaps κ) (name : String) (fb : κ) :
    get_module_name_qconfig m name fb =
      ((scopeChain name).findSome? (fun s => pyGet m.module_name s)).getD fb := by
  have H : ∀ (n : Nat) (name : String), name.length ≤ n → ∀ fb : κ,
      get_module_name_qconfig m name fb =
        ((scopeChain name).findSome? (fun s => pyGet m.module_name s)).getD fb := by
    intro n
    induction n with
    | zero =>
      intro name hlen fb
      have h0 : name = "" := length_zero_eq_empty name (Nat.le_zero.mp hlen)
      subst h0
      rw [gmnq_empty, scopeChain_empty]
      rfl
    | succ n ih =>
      intro name hlen fb
      by_cases h0 : name = ""
      · subst h0
        rw [gmnq_empty, scopeChain_empty]
        rfl
      · rw [scopeChain_cons name h0, List.findSome?_cons]
        cases hpg : pyGet m.module_name name with
        | some q => rw [gmnq_hit m name fb q h0 hpg]; rfl
        | none =>
          rw [gmnq_miss m name fb h0 hpg]
          have hlt : (parentName name).length < name.length := parentName_length_lt name h0
          exact ih (parentName name) (by omega) fb
  exact H name.length name (Nat.le_refl _) fb

/-- The parent-scope iteration reaches the empty name in at most
`name.length` steps. -/
theorem parentName_iterate_empty (name : String) :
    ∃ k : Nat, k ≤ name.length ∧ parentName^[k] name = "" := by
  have H : ∀ (n : Nat) (name : String), name.length ≤ n →
      ∃ k : Nat, k ≤ name.length ∧ parentName^[k] name = "" := by
    intro n
    induction n with
    | zero =>
      intro name hlen
      exact ⟨0, Nat.zero_le _, length_zero_eq_empty name (Nat.le_zero.mp hlen)⟩
    | succ n ih =>
      intro name hlen
      by_cases h0 : name = ""
      · exact ⟨0, Nat.zero_le _, h0⟩
      · have hlt : (parentName name).length < name.length := parentName_length_lt name h0
        obtain ⟨k, hk, hit⟩ := ih (parentName name) (by omega)
        refine ⟨k + 1, by omega, ?_⟩
        rw [Function.iterate_succ_apply]
        exact hit
  exact H name.length name (Nat.le_refl _)

/-- First match wins in the regex loop: characterization by `List.find?`. -/
theorem regexLoop_eq_find {κ : Type} (pmatch : String → String → Bool)
    (l : List (String × κ)) (name : String) (fb : κ) :
    regexLoop pmatch l name fb =
      ((l.find? (fun e => pmatch e.1 name)).map Prod.snd).getD fb := by
  induction l with
  | nil => rfl
  | cons e rest ih =>
    cases e with
    | mk p q =>
      by_cases h : pmatch p name
      · rw [regexLoop, if_pos h, List.find?_cons_of_pos rest (by simpa using h)]
        rfl
      · rw [regexLoop, if_neg h, List.find?_cons_of_neg rest (by simpa using h), ih]

theorem gmnrq_eq_find {κ : Type} (pmatch : String → String → Bool)
    (m : QConfigMaps κ) (name : String) (fb : κ) :
    get_module_name_regex_qconfig pmatch m name fb =
      ((m.module_name_regex.find? (fun e => pmatch e.1 name)).map Prod.snd).getD fb :=
  regexLoop_eq_find pmatch m.module_name_regex name fb

theorem check_error_iff (keys allowed : List String) (dn : String) :
    (∃ e, check_is_valid_config_dict keys allowed dn = .error e) ↔
      ∃ k ∈ keys, k ∉ allowed := by
  induction keys with
  | nil => simp [check_is_valid_config_dict]
  | cons k rest ih =>
    by_cases hk : k ∈ allowed
    · rw [show check_is_valid_config_dict (k :: rest) allowed dn =
          check_is_valid_config_dict rest allowed dn from by
        simp [check_is_valid_config_dict, hk]]
      rw [ih]
      constructor
      · rintro ⟨x, hx, hnx⟩
        exact ⟨x, List.mem_cons_of_mem _ hx, hnx⟩
      · rintro ⟨x, hx, hnx⟩
        rcases List.mem_cons.mp hx with rfl | hx'
        · exact absurd hk hnx
        · exact ⟨x, hx', hnx⟩
    · rw [show check_is_valid_config_dict (k :: rest) allowed dn =
          .error (invalidKeyMsg dn allowed k) from by
        simp [check_is_valid_config_dict, hk]]
      constructor
      · intro _
        exact ⟨k, List.mem_cons_self _ _, hk⟩
      · intro _
        exact ⟨_, rfl⟩

theorem check_ok_iff (keys allowed : List String) (dn : String) :
    (check_is_valid_config_dict keys allowed dn = .ok ()) ↔
      ∀ k ∈ keys, k ∈ allowed := by
  constructor
  · intro h k hk
    by_contra hnk
    obtain ⟨e, he⟩ := (check_error_iff keys allowed dn).mpr ⟨k, hk, hnk⟩
    rw [h] at he
    exact Except.noConfusion he
  · intro hall
    cases h : check_is_valid_config_dict keys allowed dn with
    | ok u => cases u; rfl
    | error e =>
      obtain ⟨k, hk, hnk⟩ := (check_error_iff keys allowed dn).mp ⟨e, h⟩
      exact absurd (hall k hk) hnk

/-- The message raised on the first invalid key. -/
theorem check_first_invalid (keys allowed : List String) (dn : String) (k : String)
    (h : keys.find? (fun x => !decide (x ∈ allowed)) = some k) :
    check_is_valid_config_dict keys allowed dn = .error (invalidKeyMsg dn allowed k) := by
  induction keys with
  | nil => simp [List.find?] at h
  | cons a rest ih =>
    by_cases ha : a ∈ allowed
    · rw [List.find?_cons_of_neg rest (by simp [ha])] at h
      rw [show check_is_valid_config_dict (a :: rest) allowed dn =
          check_is_valid_config_dict rest allowed dn from by
        simp [check_is_valid_config_dict, ha]]
      exact ih h
    · rw [List.find?_cons_of_pos rest (by simp [ha])] at h
      cases h
      simp [check_is_valid_config_dict, ha]

/-- `m` has `s` as a substring, as an explicit decomposition. -/
def containsSub (m s : String) : Prop := ∃ x y, m = x ++ s ++ y

theorem containsSub_extend (a b m s : String) (h : containsSub m s) :
    containsSub (a ++ m ++ b) s := by
  obtain ⟨x, y, rfl⟩ := h
  exact ⟨a ++ x, y ++ b, by simp [String.append_assoc]⟩

theorem pySetElems_containsSub (a : String) :
    ∀ l : List String, a ∈ l → containsSub (pySetElems l) a := by
  intro l
  induction l with
  | nil => intro h; simp at h
  | cons s rest ih =>
    intro ha
    rcases List.mem_cons.mp ha with rfl | h'
    · cases rest with
      | nil => exact ⟨sq, sq, by simp [pySetElems, String.append_assoc]⟩
      | cons b bs =>
        exact ⟨sq, sq ++ ", " ++ pySetElems (b :: bs),
          by simp [pySetElems, String.append_assoc]⟩
    · cases rest with
      | nil => simp at h'
      | cons b bs =>
        obtain ⟨x, y, hxy⟩ := ih h'
        refine ⟨sq ++ s ++ sq ++ ", " ++ x, y, ?_⟩
        simp [pySetElems, hxy, String.append_assoc]

theorem pySetStr_containsSub (a : String) (l : List String) (h : a ∈ l) :
    containsSub (pySetStr l) a :=
  containsSub_extend "\x7b" "\x7d" _ a (pySetElems_containsSub a l h)

theorem invalidKeyMsg_shape (dn : String) (allowed : List String) (k : String) :
    invalidKeyMsg dn allowed k =
      ("Expected " ++ (dn ++ (" to have the following keys: " ++
        (pySetStr allowed ++ (". But found " ++ (sq ++ (k ++ (sq ++ " instead.")))))))) := by
  simp [invalidKeyMsg, String.append_assoc]

theorem invalidKeyMsg_containsSub_key (dn : String) (allowed : List String) (k : String) :
    containsSub (invalidKeyMsg dn allowed k) k := by
  refine ⟨"Expected " ++ dn ++ " to have the following keys: " ++
    pySetStr allowed ++ ". But found " ++ sq, sq ++ " instead.", ?_⟩
  simp [invalidKeyMsg, String.append_assoc]

theorem invalidKeyMsg_containsSub_name (dn : String) (allowed : List String) (k : String) :
    containsSub (invalidKeyMsg dn allowed k) dn := by
  refine ⟨"Expected ", " to have the following keys: " ++
    pySetStr allowed ++ ". But found " ++ sq ++ k ++ sq ++ " instead.", ?_⟩
  simp [invalidKeyMsg, String.append_assoc]

theorem invalidKeyMsg_containsSub_allowed (dn : String) (allowed : List String)
    (k : String) (a : String) (ha : a ∈ allowed) :
    containsSub (invalidKeyMsg dn allowed k) a := by
  obtain ⟨x, y, hxy⟩ := pySetStr_containsSub a allowed ha
  refine ⟨"Expected " ++ dn ++ " to have the following keys: " ++ x,
    y ++ (". But found " ++ sq ++ k ++ sq ++ " instead."), ?_⟩
  simp [invalidKeyMsg, hxy, String.append_assoc]

theorem toMaps_fields {κ : Type} (d : RawDict κ) (m : QConfigMaps κ)
    (h : toMaps d = some m) :
    pyGet d "object_type" = some (.pairs m.object_type) ∧
    pyGet d "module_name_regex" = some (.pairs m.module_name_regex) ∧
    pyGet d "module_name" = some (.pairs m.module_name) := by
  unfold toMaps at h
  split at h
  · next ot mnr mn h1 h2 h3 =>
    cases h
    exact ⟨h1, h2, h3⟩
  · exact Option.noConfusion h

theorem gotqE_ok {κ : Type} (d : RawDict κ) (m : QConfigMaps κ)
    (h : pyGet d "object_type" = some (.pairs m.object_type))
    (t : String) (fb : κ) :
    get_object_type_qconfigE d t fb = .ok (get_object_type_qconfig m t fb) := by
  unfold get_object_type_qconfigE
  rw [h]
  rfl

theorem gmnrqE_ok {κ : Type} (pmatch : String → String → Bool) (d : RawDict κ)
    (m : QConfigMaps κ)
    (h : pyGet d "module_name_regex" = some (.pairs m.module_name_regex))
    (name : String) (fb : κ) :
    get_module_name_regex_qconfigE pmatch d name fb =
      .ok (get_module_name_regex_qconfig pmatch m name fb) := by
  unfold get_module_name_regex_qconfigE
  rw [h]
  rfl

theorem gmnqE_ok {κ : Type} (d : RawDict κ) (m : QConfigMaps κ)
    (h : pyGet d "module_name" = some (.pairs m.module_name))
    (name : String) (fb : κ) :
    get_module_name_qconfigE d name fb = .ok (get_module_name_qconfig m name fb) := by
  have H : ∀ (n : Nat) (name : String), name.length ≤ n → ∀ fb : κ,
      get_module_name_qconfigE d name fb = .ok (get_module_name_qconfig m name fb) := by
    intro n
    induction n with
    | zero =>
      intro name hlen fb
      have h0 : name = "" := length_zero_eq_empty name (Nat.le_zero.mp hlen)
      subst h0
      rw [gmnq_empty, get_module_name_qconfigE]
      simp
    | succ n ih =>
      intro name hlen fb
      by_cases h0 : name = ""
      · subst h0
        rw [gmnq_empty, get_module_name_qconfigE]
        simp
      · rw [get_module_name_qconfigE]
        simp only [if_neg h0, h]
        cases hpg : pyGet m.module_name name with
        | some q =>
          rw [gmnq_hit m name fb q h0 hpg]
        | none =>
          rw [gmnq_miss m name fb h0 hpg]
          have hlt : (parentName name).length < name.length := parentName_length_lt name h0
          exact ih (parentName name) (by omega) fb
  exact H name.length name (Nat.le_refl _) fb

theorem get_qconfigE_ok {κ : Type} (pmatch : String → String → Bool)
    (d : RawDict κ) (m : QConfigMaps κ) (h : toMaps d = some m)
    (t name : String) (g : κ) :
    get_qconfigE pmatch d t name g = .ok (get_qconfig pmatch m t name g) := by
  obtain ⟨h1, h2, h3⟩ := toMaps_fields d m h
  simp only [get_qconfigE, gotqE_ok d m h1, gmnrqE_ok pmatch d m h2, gmnqE_ok d m h3]
  rfl

theorem convertKey_ok {κ : Type} (key : String) (d dres : RawDict κ)
    (h : convertKeyToOrderedDict key d = .ok dres) :
    dres = pySet d key (.pairs (odictOfPairs (listedPairs d key))) := by
  unfold convertKeyToOrderedDict at h
  cases hg : pyGet d key with
  | none =>
    simp only [pyGetD, hg, Option.getD] at h
    cases h
    simp [listedPairs, hg]
  | some v =>
    cases v with
    | pairs l =>
      simp only [pyGetD, hg, Option.getD] at h
      cases h
      simp [listedPairs, hg]
    | qc q =>
      simp only [pyGetD, hg, Option.getD] at h
      exact Except.noConfusion h

theorem convert_fields {κ : Type} (d0 d : RawDict κ)
    (h : convert_dict_to_ordered_dict d0 = .ok d) :
    pyGet d "object_type" = some (.pairs (odictOfPairs (listedPairs d0 "object_type"))) ∧
    pyGet d "module_name_regex" =
      some (.pairs (odictOfPairs (listedPairs d0 "module_name_regex"))) ∧
    pyGet d "module_name" = some (.pairs (odictOfPairs (listedPairs d0 "module_name"))) ∧
    ∀ k, k ≠ "object_type" → k ≠ "module_name_regex" → k ≠ "module_name" →
      pyGet d k = pyGet d0 k := by
  unfold convert_dict_to_ordered_dict at h
  cases hc1 : convertKeyToOrderedDict "object_type" d0 with
  | error e => rw [hc1] at h; exact Except.noConfusion h
  | ok d1 =>
    rw [hc1] at h
    simp only at h
    cases hc2 : convertKeyToOrderedDict "module_name_regex" d1 with
    | error e => rw [hc2] at h; exact Except.noConfusion h
    | ok d2 =>
      rw [hc2] at h
      simp only at h
      have e1 := convertKey_ok _ _ _ hc1
      have e2 := convertKey_ok _ _ _ hc2
      have e3 := convertKey_ok _ _ _ h
      have hr2 : listedPairs d1 "module_name_regex" = listedPairs d0 "module_name_regex" := by
        rw [e1]
        unfold listedPairs
        rw [pyGet_pySet_ne d0 "object_type" "module_name_regex" _ (by decide)]
      have e2' : d2 = pySet d1 "module_name_regex"
          (.pairs (odictOfPairs (listedPairs d0 "module_name_regex"))) := by
        rw [e2, hr2]
      have hr3 : listedPairs d2 "module_name" = listedPairs d0 "module_name" := by
        rw [e2', e1]
        unfold listedPairs
        rw [pyGet_pySet_ne _ "module_name_regex" "module_name" _ (by decide),
          pyGet_pySet_ne d0 "object_type" "module_name" _ (by decide)]
      have e3' : d = pySet d2 "module_name"
          (.pairs (odictOfPairs (listedPairs d0 "module_name"))) := by
        rw [e3, hr3]
      refine ⟨?_, ?_, ?_, ?_⟩
      · rw [e3', pyGet_pySet_ne _ "module_name" "object_type" _ (by decide),
          e2', pyGet_pySet_ne _ "module_name_regex" "object_type" _ (by decide),
          e1, pyGet_pySet_self]
      · rw [e3', pyGet_pySet_ne _ "module_name" "module_name_regex" _ (by decide),
          e2', pyGet_pySet_self]
      · rw [e3', pyGet_pySet_self]
      · intro k hk1 hk2 hk3
        rw [e3', pyGet_pySet_ne _ "module_name" k _ hk3,
          e2', pyGet_pySet_ne _ "module_name_regex" k _ hk2,
          e1, pyGet_pySet_ne _ "object_type" k _ hk1]

theorem convert_toMaps {κ : Type} (d0 d : RawDict κ)
    (h : convert_dict_to_ordered_dict d0 = .ok d) :
    toMaps d = some ⟨odictOfPairs (listedPairs d0 "object_type"),
      odictOfPairs (listedPairs d0 "module_name_regex"),
      odictOfPairs (listedPairs d0 "module_name")⟩ := by
  obtain ⟨h1, h2, h3, _⟩ := convert_fields d0 d h
  unfold toMaps
  rw [h1, h2, h3]

/-- C1 counterexample: with `module_name = {"a": 1}`, `module_name_regex =
{"a.b": 2}` and global qconfig `0`, the name `"a.b"` has no explicit
`module_name` entry and its regex pattern matches, yet `get_qconfig` returns
the ancestor entry `1`, not the regex entry `2` — so "otherwise the first
matching module_name_regex entry wins" fails as stated. -/
theorem C1_counterexample :
    pyGet ([("a", 1)] : List (String × Nat)) "a.b" = none ∧
    (fun p n : String => p == n) "a.b" "a.b" = true ∧
    get_qconfig (fun p n : String => p == n)
      ⟨[], [("a.b", 2)], [("a", 1)]⟩ "T" "a.b" 0 = 1 := by
  refine ⟨by decide, by decide, ?_⟩
  have hreg : get_module_name_regex_qconfig (fun p n : String => p == n)
      ⟨[], [("a.b", 2)], [("a", 1)]⟩ "a.b"
      (get_object_type_qconfig ⟨[], [("a.b", 2)], [("a", 1)]⟩ "T" 0) = 2 := by decide
  unfold get_qconfig
  rw [hreg]
  rw [gmnq_miss _ _ _ (by decide) (by decide)]
  rw [show parentName "a.b" = "a" from by decide]
  exact gmnq_hit _ _ _ _ (by decide) (by decide)

/-- C1 (amended): `get_qconfig` resolves by precedence: the `module_name`
entry of the module name — or, when the name has no entry, of its nearest
ancestor scope — wins; otherwise the first matching `module_name_regex`
entry wins; otherwise the `object_type` entry for the module type wins;
otherwise the global qconfig is returned. -/
theorem C1_get_qconfig_precedence {κ : Type} (pmatch : String → String → Bool)
    (qconfig_dict : QConfigMaps κ) (module_type module_name : String)
    (global_qconfig : κ) :
    get_qconfig pmatch qconfig_dict module_type module_name global_qconfig =
      ((scopeChain module_name).findSome?
          (fun s => pyGet qconfig_dict.module_name s)).getD
        (((qconfig_dict.module_name_regex.find?
            (fun e => pmatch e.1 module_name)).map Prod.snd).getD
          ((pyGet qconfig_dict.object_type module_type).getD global_qconfig)) := by
  unfold get_qconfig
  rw [gmnq_eq_chain, gmnrq_eq_find]
  rfl

/-- C2: `check_is_valid_qconfig_dict` raises exactly when some key lies
outside `{"", "object_type", "module_name_regex", "module_name"}`, and
accepts (returns unit) exactly when all keys are in that set. -/
theorem C2_check_is_valid_qconfig_dict_error_iff (qconfig_dict_keys : List String) :
    ((∃ e, check_is_valid_qconfig_dict qconfig_dict_keys = .error e) ↔
      ∃ k ∈ qconfig_dict_keys, k ∉ qconfig_dict_allowed_keys) ∧
    ((check_is_valid_qconfig_dict qconfig_dict_keys = .ok ()) ↔
      ∀ k ∈ qconfig_dict_keys, k ∈ qconfig_dict_allowed_keys) :=
  ⟨check_error_iff qconfig_dict_keys qconfig_dict_allowed_keys "qconfig_dict",
   check_ok_iff qconfig_dict_keys qconfig_dict_allowed_keys "qconfig_dict"⟩

/-- C3: when a dictionary is rejected, the error is raised on the first
unrecognized key in iteration order, and the message contains that key,
every allowed key (the rendered allowed set), and the dictionary's name. -/
theorem C3_first_invalid_key_message (config_dict_keys allowed_keys : List String)
    (dict_name k : String)
    (h : config_dict_keys.find? (fun x => !decide (x ∈ allowed_keys)) = some k) :
    check_is_valid_config_dict config_dict_keys allowed_keys dict_name =
      .error (invalidKeyMsg dict_name allowed_keys k) ∧
    containsSub (invalidKeyMsg dict_name allowed_keys k) k ∧
    (∀ a ∈ allowed_keys, containsSub (invalidKeyMsg dict_name allowed_keys k) a) ∧
    containsSub (invalidKeyMsg dict_name allowed_keys k) dict_name :=
  ⟨check_first_invalid _ _ _ _ h, invalidKeyMsg_containsSub_key _ _ _,
   fun a ha => invalidKeyMsg_containsSub_allowed _ _ _ a ha,
   invalidKeyMsg_containsSub_name _ _ _⟩

theorem C3_first_invalid_key_message_witness :
    ((["", "extra"].find? (fun x => !decide (x ∈ ["", "object_type"])) = some "extra") ∧
      check_is_valid_config_dict ["", "extra"] ["", "object_type"] "qconfig_dict" =
        .error (invalidKeyMsg "qconfig_dict" ["", "object_type"] "extra")) :=
  ⟨by decide, (C3_first_invalid_key_message ["", "extra"] ["", "object_type"]
    "qconfig_dict" "extra" (by decide)).1⟩

/-- C4: when the `module_name` map has no entry for the name,
`get_module_name_qconfig` recurses to the parent scope; the empty name
returns the fallback; overall it returns the entry of the nearest scope in
the parent chain that has one, the fallback when none has. -/
theorem C4_module_name_parent_fallback {κ : Type} (qconfig_dict : QConfigMaps κ)
    (module_name : String) (fallback_qconfig : κ) :
    (module_name ≠ "" → pyGet qconfig_dict.module_name module_name = none →
      get_module_name_qconfig qconfig_dict module_name fallback_qconfig =
        get_module_name_qconfig qconfig_dict (parentName module_name) fallback_qconfig) ∧
    (get_module_name_qconfig qconfig_dict "" fallback_qconfig = fallback_qconfig) ∧
    (get_module_name_qconfig qconfig_dict module_name fallback_qconfig =
      ((scopeChain module_name).findSome?
        (fun s => pyGet qconfig_dict.module_name s)).getD fallback_qconfig) :=
  ⟨fun h0 h => gmnq_miss qconfig_dict module_name fallback_qconfig h0 h,
   gmnq_empty qconfig_dict fallback_qconfig,
   gmnq_eq_chain qconfig_dict module_name fallback_qconfig⟩

theorem C4_module_name_parent_fallback_witness :
    (("a.b" : String) ≠ "" ∧ pyGet ([("a", 7)] : List (String × Nat)) "a.b" = none) ∧
    get_module_name_qconfig ⟨[], [], [("a", 7)]⟩ "a.b" (0 : Nat) =
      get_module_name_qconfig ⟨[], [], [("a", 7)]⟩ (parentName "a.b") (0 : Nat) :=
  ⟨⟨by decide, by decide⟩,
   (C4_module_name_parent_fallback ⟨[], [], [("a", 7)]⟩ "a.b" 0).1
     (by decide) (by decide)⟩

/-- C5: the parent-scope recursion terminates — iterating `parentName`
reaches the empty name within `module_name.length` steps, and at the empty
name `get_module_name_qconfig` returns the fallback. -/
theorem C5_parent_recursion_terminates {κ : Type} (qconfig_dict : QConfigMaps κ)
    (module_name : String) (fallback_qconfig : κ) :
    (∃ k : Nat, k ≤ module_name.length ∧ parentName^[k] module_name = "") ∧
    get_module_name_qconfig qconfig_dict "" fallback_qconfig = fallback_qconfig :=
  ⟨parentName_iterate_empty module_name, gmnq_empty qconfig_dict fallback_qconfig⟩

/-- C6: `get_module_name_regex_qconfig` returns the qconfig of the first
pattern (in map order) matching the module name, the fallback when none
matches, and a non-matching leading pattern never influences the result. -/
theorem C6_regex_first_match {κ : Type} (pmatch : String → String → Bool)
    (qconfig_dict : QConfigMaps κ) (module_name : String) (fallback_qconfig : κ) :
    (get_module_name_regex_qconfig pmatch qconfig_dict module_name fallback_qconfig =
      ((qconfig_dict.module_name_regex.find?
        (fun e => pmatch e.1 module_name)).map Prod.snd).getD fallback_qconfig) ∧
    (∀ (p : String) (q : κ) (rest : List (String × κ)), pmatch p module_name = false →
      get_module_name_regex_qconfig pmatch
          ⟨qconfig_dict.object_type, (p, q) :: rest, qconfig_dict.module_name⟩
          module_name fallback_qconfig =
        get_module_name_regex_qconfig pmatch
          ⟨qconfig_dict.object_type, rest, qconfig_dict.module_name⟩
          module_name fallback_qconfig) := by
  refine ⟨gmnrq_eq_find pmatch qconfig_dict module_name fallback_qconfig, ?_⟩
  intro p q rest hp
  unfold get_module_name_regex_qconfig
  simp only [regexLoop, hp]
  rfl

theorem C6_regex_first_match_witness :
    ((fun p n : String => p == n) "a" "b" = false) ∧
    get_module_name_regex_qconfig (fun p n : String => p == n)
        ⟨[], [("a", 1), ("b", 2)], []⟩ "b" (0 : Nat) =
      get_module_name_regex_qconfig (fun p n : String => p == n)
        ⟨[], [("b", 2)], []⟩ "b" (0 : Nat) :=
  ⟨by decide, (C6_regex_first_match (fun p n : String => p == n)
    ⟨[], [("b", 2)], []⟩ "b" 0).2 "a" 1 [("b", 2)] (by decide)⟩

/-- C7: once `convert_dict_to_ordered_dict` has succeeded, the dictionary
has the three map entries and all four resolvers return `.ok` — no
exception is raised. -/
theorem C7_resolvers_total {κ : Type} (pmatch : String → String → Bool)
    (d0 d : RawDict κ) (h : convert_dict_to_ordered_dict d0 = .ok d)
    (module_type module_name : String) (global_qconfig fallback_qconfig : κ) :
    ∃ m : QConfigMaps κ, toMaps d = some m ∧
      get_object_type_qconfigE d module_type fallback_qconfig =
        .ok (get_object_type_qconfig m module_type fallback_qconfig) ∧
      get_module_name_regex_qconfigE pmatch d module_name fallback_qconfig =
        .ok (get_module_name_regex_qconfig pmatch m module_name fallback_qconfig) ∧
      get_module_name_qconfigE d module_name fallback_qconfig =
        .ok (get_module_name_qconfig m module_name fallback_qconfig) ∧
      get_qconfigE pmatch d module_type module_name global_qconfig =
        .ok (get_qconfig pmatch m module_type module_name global_qconfig) := by
  have hm := convert_toMaps d0 d h
  obtain ⟨h1, h2, h3⟩ := toMaps_fields d _ hm
  exact ⟨_, hm, gotqE_ok d _ h1 _ _, gmnrqE_ok pmatch d _ h2 _ _,
    gmnqE_ok d _ h3 _ _, get_qconfigE_ok pmatch d _ hm _ _ _⟩

theorem C7_resolvers_total_witness :
    (convert_dict_to_ordered_dict ([("", PyVal.qc 9)] : RawDict Nat) =
      .ok [("", PyVal.qc 9), ("object_type", PyVal.pairs []),
           ("module_name_regex", PyVal.pairs []), ("module_name", PyVal.pairs [])]) ∧
    (∃ m : QConfigMaps Nat,
      toMaps [("", PyVal.qc 9), ("object_type", PyVal.pairs []),
        ("module_name_regex", PyVal.pairs []), ("module_name", PyVal.pairs [])] = some m ∧
      get_object_type_qconfigE [("", PyVal.qc 9), ("object_type", PyVal.pairs []),
          ("module_name_regex", PyVal.pairs []), ("module_name", PyVal.pairs [])] "T" 0 =
        .ok (get_object_type_qconfig m "T" 0) ∧
      get_module_name_regex_qconfigE (fun _ _ => false) [("", PyVal.qc 9),
          ("object_type", PyVal.pairs []), ("module_name_regex", PyVal.pairs []),
          ("module_name", PyVal.pairs [])] "a" 0 =
        .ok (get_module_name_regex_qconfig (fun _ _ => false) m "a" 0) ∧
      get_module_name_qconfigE [("", PyVal.qc 9), ("object_type", PyVal.pairs []),
          ("module_name_regex", PyVal.pairs []), ("module_name", PyVal.pairs [])] "a" 0 =
        .ok (get_module_name_qconfig m "a" 0) ∧
      get_qconfigE (fun _ _ => false) [("", PyVal.qc 9), ("object_type", PyVal.pairs []),
          ("module_name_regex", PyVal.pairs []), ("module_name", PyVal.pairs [])]
          "T" "a" 9 =
        .ok (get_qconfig (fun _ _ => false) m "T" "a" 9)) :=
  ⟨rfl, C7_resolvers_total (fun _ _ => false) [("", PyVal.qc 9)] _ rfl "T" "a" 9 0⟩

theorem flatten_key_ok {κ : Type} (d : RawDict κ) (key : String) (f fres : RawDict κ)
    (h : flatten_key d key f = .ok fres) :
    fres = (listedPairs d key).foldl (fun acc p => pySet acc p.1 (.qc p.2)) f := by
  unfold flatten_key at h
  cases hg : pyGet d key with
  | none =>
    rw [hg] at h
    cases h
    simp [listedPairs, hg]
  | some v =>
    cases v with
    | pairs l =>
      rw [hg] at h
      simp only at h
      cases h
      unfold listedPairs
      rw [hg]
      rfl
    | qc q =>
      rw [hg] at h
      simp only at h
      exact Except.noConfusion h

theorem get_flattened_ok {κ : Type} (d f : RawDict κ)
    (h : get_flattened_qconfig_dict d = .ok f) :
    f = (listedPairs d "module_name").foldl (fun acc p => pySet acc p.1 (.qc p.2))
          ((listedPairs d "object_type").foldl (fun acc p => pySet acc p.1 (.qc p.2))
            (match pyGet d "" with
             | some v => [("", v)]
             | none => [])) := by
  unfold get_flattened_qconfig_dict at h
  cases hf1 : flatten_key d "object_type"
      (match pyGet d "" with
       | some v => [("", v)]
       | none => []) with
  | error e => rw [hf1] at h; exact Except.noConfusion h
  | ok f1 =>
    rw [hf1] at h
    simp only at h
    rw [flatten_key_ok d "module_name" f1 f h, flatten_key_ok d "object_type" _ f1 hf1]
    rfl

theorem flatten_key_congr {κ : Type} (d1 d2 : RawDict κ) (key : String)
    (h : pyGet d1 key = pyGet d2 key) (f : RawDict κ) :
    flatten_key d1 key f = flatten_key d2 key f := by
  unfold flatten_key
  rw [h]

theorem get_flattened_ignores_regex {κ : Type} (d : RawDict κ) (v : PyVal κ) :
    get_flattened_qconfig_dict (pySet d "module_name_regex" v) =
      get_flattened_qconfig_dict d := by
  unfold get_flattened_qconfig_dict
  simp only [flatten_key_congr (pySet d "module_name_regex" v) d "object_type"
      (pyGet_pySet_ne d "module_name_regex" "object_type" v (by decide)),
    flatten_key_congr (pySet d "module_name_regex" v) d "module_name"
      (pyGet_pySet_ne d "module_name_regex" "module_name" v (by decide)),
    pyGet_pySet_ne d "module_name_regex" "" v (by decide)]

/-- C8 counterexample: with duplicate keys listed under `object_type`, the
ordered map produced by `convert_dict_to_ordered_dict` does not hold exactly
the listed pairs — `[("x", 1), ("x", 2)]` collapses to `[("x", 2)]`. -/
theorem C8_counterexample :
    convert_dict_to_ordered_dict
        ([("object_type", PyVal.pairs [("x", 1), ("x", 2)])] : RawDict Nat) =
      .ok [("object_type", PyVal.pairs [("x", 2)]),
           ("module_name_regex", PyVal.pairs []), ("module_name", PyVal.pairs [])] ∧
    pyGet ([("object_type", PyVal.pairs [("x", 2)]),
            ("module_name_regex", PyVal.pairs []),
            ("module_name", PyVal.pairs [])] : RawDict Nat) "object_type" ≠
      some (PyVal.pairs [("x", 1), ("x", 2)]) :=
  ⟨rfl, by decide⟩

/-- C8 (amended): after `convert_dict_to_ordered_dict` succeeds, the
dictionary holds `object_type`, `module_name_regex` and `module_name` as
ordered maps with the previously listed pairs (exactly those pairs, in their
original order, when the listed keys are pairwise distinct; the empty map
when the key was absent), and no other entry is changed. -/
theorem C8_convert_ordered {κ : Type} (d0 d : RawDict κ)
    (h : convert_dict_to_ordered_dict d0 = .ok d)
    (hnd1 : ((listedPairs d0 "object_type").map Prod.fst).Nodup)
    (hnd2 : ((listedPairs d0 "module_name_regex").map Prod.fst).Nodup)
    (hnd3 : ((listedPairs d0 "module_name").map Prod.fst).Nodup) :
    pyGet d "object_type" = some (.pairs (listedPairs d0 "object_type")) ∧
    pyGet d "module_name_regex" = some (.pairs (listedPairs d0 "module_name_regex")) ∧
    pyGet d "module_name" = some (.pairs (listedPairs d0 "module_name")) ∧
    ∀ k, k ≠ "object_type" → k ≠ "module_name_regex" → k ≠ "module_name" →
      pyGet d k = pyGet d0 k := by
  obtain ⟨h1, h2, h3, h4⟩ := convert_fields d0 d h
  rw [odictOfPairs_of_nodup _ hnd1] at h1
  rw [odictOfPairs_of_nodup _ hnd2] at h2
  rw [odictOfPairs_of_nodup _ hnd3] at h3
  exact ⟨h1, h2, h3, h4⟩

theorem C8_convert_ordered_witness :
    (convert_dict_to_ordered_dict
        ([("", PyVal.qc 5), ("object_type", PyVal.pairs [("x", 1)]),
          ("custom", PyVal.qc 7)] : RawDict Nat) =
      .ok [("", PyVal.qc 5), ("object_type", PyVal.pairs [("x", 1)]),
           ("custom", PyVal.qc 7), ("module_name_regex", PyVal.pairs []),
           ("module_name", PyVal.pairs [])] ∧
      ((listedPairs ([("", PyVal.qc 5), ("object_type", PyVal.pairs [("x", 1)]),
          ("custom", PyVal.qc 7)] : RawDict Nat) "object_type").map Prod.fst).Nodup ∧
      ("custom" : String) ≠ "object_type") ∧
    pyGet ([("", PyVal.qc 5), ("object_type", PyVal.pairs [("x", 1)]),
        ("custom", PyVal.qc 7), ("module_name_regex", PyVal.pairs []),
        ("module_name", PyVal.pairs [])] : RawDict Nat) "custom" =
      pyGet ([("", PyVal.qc 5), ("object_type", PyVal.pairs [("x", 1)]),
        ("custom", PyVal.qc 7)] : RawDict Nat) "custom" :=
  ⟨⟨rfl, by decide, by decide⟩,
    (C8_convert_ordered
      ([("", PyVal.qc 5), ("object_type", PyVal.pairs [("x", 1)]),
        ("custom", PyVal.qc 7)] : RawDict Nat)
      [("", PyVal.qc 5), ("object_type", PyVal.pairs [("x", 1)]),
        ("custom", PyVal.qc 7), ("module_name_regex", PyVal.pairs []),
        ("module_name", PyVal.pairs [])]
      rfl (by decide) (by decide) (by decide)).2.2.2
      "custom" (by decide) (by decide) (by decide)⟩

/-- C9 counterexample: a `module_name` entry whose key is the empty string
overwrites the global entry, so the flattened map does not contain the
global qconfig under `""` even though the qconfig_dict has a `""` entry. -/
theorem C9_counterexample :
    get_flattened_qconfig_dict
        ([("", PyVal.qc 5), ("module_name", PyVal.pairs [("", 9)])] : RawDict Nat) =
      .ok [("", PyVal.qc 9)] ∧
    pyGet ([("", PyVal.qc 5), ("module_name", PyVal.pairs [("", 9)])] : RawDict Nat) "" =
      some (PyVal.qc 5) ∧
    pyGet ([("", PyVal.qc 9)] : RawDict Nat) "" ≠ some (PyVal.qc 5) :=
  ⟨rfl, by decide, by decide⟩

/-- C9 (amended): provided the keys listed under `object_type` are pairwise
distinct, likewise under `module_name`, and `""` is listed under neither,
the flattened map holds the global entry under `""` exactly as in the input,
every `module_name` pair, and every `object_type` pair whose key is not
overwritten by a `module_name` pair; `module_name_regex` entries are ignored
entirely. -/
theorem C9_flattened {κ : Type} (d f : RawDict κ)
    (h : get_flattened_qconfig_dict d = .ok f)
    (hnd1 : ((listedPairs d "object_type").map Prod.fst).Nodup)
    (hnd3 : ((listedPairs d "module_name").map Prod.fst).Nodup)
    (he1 : "" ∉ (listedPairs d "object_type").map Prod.fst)
    (he3 : "" ∉ (listedPairs d "module_name").map Prod.fst) :
    (pyGet f "" = pyGet d "") ∧
    (∀ k q, (k, q) ∈ listedPairs d "module_name" → pyGet f k = some (.qc q)) ∧
    (∀ k q, (k, q) ∈ listedPairs d "object_type" →
      k ∉ (listedPairs d "module_name").map Prod.fst → pyGet f k = some (.qc q)) ∧
    (∀ v, get_flattened_qconfig_dict (pySet d "module_name_regex" v) =
      get_flattened_qconfig_dict d) := by
  have hf := get_flattened_ok d f h
  refine ⟨?_, ?_, ?_, fun v => get_flattened_ignores_regex d v⟩
  · simp only [hf, pyGet_qcFold, lastVal_none_of_not_mem _ _ he3,
      lastVal_none_of_not_mem _ _ he1]
    cases hg : pyGet d "" with
    | some v => simp [pyGet, hg]
    | none => simp [pyGet, hg]
  · intro k q hkq
    have hmv : lastVal (listedPairs d "module_name") k = some q :=
      lastVal_of_nodup _ _ _ hnd3 hkq
    simp only [hf, pyGet_qcFold, hmv]
  · intro k q hkq hkn
    have hmv : lastVal (listedPairs d "object_type") k = some q :=
      lastVal_of_nodup _ _ _ hnd1 hkq
    simp only [hf, pyGet_qcFold, lastVal_none_of_not_mem _ _ hkn, hmv]

theorem C9_flattened_witness :
    (get_flattened_qconfig_dict
        ([("", PyVal.qc 5), ("object_type", PyVal.pairs [("x", 1), ("y", 2)]),
          ("module_name", PyVal.pairs [("y", 3)])] : RawDict Nat) =
      .ok [("", PyVal.qc 5), ("x", PyVal.qc 1), ("y", PyVal.qc 3)]) ∧
    pyGet ([("", PyVal.qc 5), ("x", PyVal.qc 1), ("y", PyVal.qc 3)] : RawDict Nat) "" =
      pyGet ([("", PyVal.qc 5), ("object_type", PyVal.pairs [("x", 1), ("y", 2)]),
        ("module_name", PyVal.pairs [("y", 3)])] : RawDict Nat) "" ∧
    pyGet ([("", PyVal.qc 5), ("x", PyVal.qc 1), ("y", PyVal.qc 3)] : RawDict Nat) "y" =
      some (PyVal.qc 3) ∧
    pyGet ([("", PyVal.qc 5), ("x", PyVal.qc 1), ("y", PyVal.qc 3)] : RawDict Nat) "x" =
      some (PyVal.qc 1) := by
  have hc := C9_flattened
    ([("", PyVal.qc 5), ("object_type", PyVal.pairs [("x", 1), ("y", 2)]),
      ("module_name", PyVal.pairs [("y", 3)])] : RawDict Nat)
    [("", PyVal.qc 5), ("x", PyVal.qc 1), ("y", PyVal.qc 3)]
    rfl (by decide) (by decide) (by decide) (by decide)
  exact ⟨rfl, hc.1, hc.2.1 "y" 3 (by decide), hc.2.2.1 "x" 1 (by decide) (by decide)⟩

end QFx

namespace DdpTrainer

/-- `DdpTrainer.HookState`: state carried by the DDP communication hook.
`C` and `P` are the types of the trainer reference and the process group. -/
structure HookState (C P : Type) where
  cref : C
  process_group : P
  batch_number : Int

/-- `HookState.__init__`: stores `cref` and `process_group` and sets
`batch_number = -1`. -/
def HookState.init {C P : Type} (cref : C) (process_group : P) : HookState C P :=
  { cref := cref, process_group := process_group, batch_number := -1 }

/-- `HookState.get_key`: `f"{self.batch_number},{bucket_index}"`. -/
def HookState.get_key {C P : Type} (s : HookState C P) (bucket_index : Int) : String :=
  toString s.batch_number ++ "," ++ toString bucket_index

/-- `HookState.next_batch`: `self.batch_number += 1`. -/
def HookState.next_batch {C P : Type} (s : HookState C P) : HookState C P :=
  { s with batch_number := s.batch_number + 1 }

theorem iterate_hookstate {C P : Type} (cref : C) (pg : P) :
    ∀ n : Nat, HookState.next_batch^[n] (HookState.init cref pg) =
      { cref := cref, process_group := pg, batch_number := (n : Int) - 1 } := by
  intro n
  induction n with
  | zero =>
    rw [Function.iterate_zero_apply]
    unfold HookState.init
    congr 1
  | succ n ih =>
    rw [Function.iterate_succ_apply', ih]
    unfold HookState.next_batch
    congr 1
    push_cast
    ring

/-- C10: `HookState.init` sets `batch_number = -1`; `next_batch` increments
it by exactly one and leaves `cref` and `process_group` unchanged; after `n`
calls to `next_batch`, `get_key bucket_index` is the string rendering of
`n - 1`, a comma, and the bucket index. -/
theorem C10_hook_state {C P : Type} (cref : C) (process_group : P)
    (s : HookState C P) (n : Nat) (bucket_index : Int) :
    (HookState.init cref process_group).batch_number = -1 ∧
    (s.next_batch.batch_number = s.batch_number + 1 ∧
      s.next_batch.cref = s.cref ∧
      s.next_batch.process_group = s.process_group) ∧
    ((HookState.next_batch^[n] (HookState.init cref process_group)).cref = cref ∧
      (HookState.next_batch^[n] (HookState.init cref process_group)).process_group =
        process_group ∧
      (HookState.next_batch^[n] (HookState.init cref process_group)).batch_number =
        (n : Int) - 1) ∧
    (HookState.next_batch^[n] (HookState.init cref process_group)).get_key
        bucket_index =
      toString ((n : Int) - 1) ++ "," ++ toString bucket_index := by
  refine ⟨rfl, ⟨rfl, rfl, rfl⟩, ?_, ?_⟩
  · rw [iterate_hookstate]
    exact ⟨rfl, rfl, rfl⟩
  · rw [iterate_hookstate]
    rfl

end DdpTrainer
